import Mathlib

/-!
Verification of the assessment-report retrieval service (`main.py`).

Python strings are modelled as `List Char` (`PyStr`), bytes objects as
`List Nat` (`PyBytes`).  Python library helpers used by the source
(`str.strip`, `str.lower`, `str.upper`, `str.endswith`, `str.startswith`,
`dict.fromkeys`, `itertools.product`, `os.path.basename`,
`os.path.splitext`, `urllib.parse.urlsplit/urlparse/urljoin`) are
translated from CPython 3.11, restricted to what the source exercises.
External effects (HTTP fetches, Dropbox calls, pikepdf) are modelled as
explicit outcome values threaded through the translated control flow.
-/

set_option maxRecDepth 4000

abbrev PyStr := List Char

abbrev PyBytes := List Nat

/-- Coerce a Lean string literal to the `List Char` model of Python strings. -/
def pys (s : String) : PyStr := s.data

/-- Python `str.lower`, per character (ASCII-adequate model). -/
def pyLower (s : PyStr) : PyStr := s.map Char.toLower

/-- Python `str.upper`, per character (ASCII-adequate model). -/
def pyUpper (s : PyStr) : PyStr := s.map Char.toUpper

/-- The whitespace characters stripped by Python `str.strip` (ASCII subset). -/
def isPySpace (c : Char) : Bool :=
  c = ' ' || c = '\t' || c = '\n' || c = '\x0d' || c = '\x0b' || c = '\x0c'

/-- Python `str.strip`: drop leading and trailing whitespace. -/
def pyStrip (s : PyStr) : PyStr :=
  ((s.dropWhile isPySpace).reverse.dropWhile isPySpace).reverse

/-- Python `s.endswith(t)`. -/
def pyEndsWith (t s : PyStr) : Bool := t.isSuffixOf s

/-- Python `s.startswith(t)`. -/
def pyStartsWith (t s : PyStr) : Bool := t.isPrefixOf s

/-- Worker for `pyDedup`, keeping the first occurrence of each element. -/
def dedupGo {α : Type} [DecidableEq α] (seen : List α) : List α → List α
  | [] => []
  | x :: xs => if x ∈ seen then dedupGo seen xs else x :: dedupGo (x :: seen) xs

/-- Python `list(dict.fromkeys(l))`: remove duplicates, keeping the first
occurrence of each element, otherwise preserving order. -/
def pyDedup {α : Type} [DecidableEq α] (l : List α) : List α := dedupGo [] l

/-- Cartesian product of a list of lists, in the order produced by
`itertools.product` (leftmost factor varies slowest). -/
def listProd {α : Type} : List (List α) → List (List α)
  | [] => [[]]
  | l :: ls => l.flatMap (fun x => (listProd ls).map (fun t => x :: t))

/-- Function `_case_variants` from `main.py` (lines 307-310): all per-character
lower/upper case selections of `ext`, empty input giving the empty list. -/
def case_variants (ext : PyStr) : List PyStr :=
  if ext = [] then []
  else listProd (ext.map (fun c => [c.toLower, c.toUpper]))

theorem dedupGo_sublist {α : Type} [DecidableEq α] :
    ∀ (l : List α) (seen : List α), (dedupGo seen l).Sublist l := by
  intro l
  induction l with
  | nil => intro seen; simp [dedupGo]
  | cons x xs ih =>
    intro seen
    by_cases hx : x ∈ seen
    · simpa [dedupGo, hx] using (ih seen).trans (List.sublist_cons_self x xs)
    · simpa [dedupGo, hx] using (ih (x :: seen)).cons₂ x

theorem mem_dedupGo {α : Type} [DecidableEq α] :
    ∀ (l : List α) (seen : List α) (x : α),
      x ∈ dedupGo seen l ↔ x ∈ l ∧ x ∉ seen := by
  intro l
  induction l with
  | nil => intro seen x; simp [dedupGo]
  | cons y ys ih =>
    intro seen x
    by_cases hy : y ∈ seen
    · rw [show dedupGo seen (y :: ys) = dedupGo seen ys from by
        simp [dedupGo, hy], ih]
      constructor
      · rintro ⟨hm, hs⟩; exact ⟨List.mem_cons_of_mem _ hm, hs⟩
      · rintro ⟨hm, hs⟩
        rcases List.mem_cons.1 hm with rfl | hm'
        · exact absurd hy hs
        · exact ⟨hm', hs⟩
    · rw [show dedupGo seen (y :: ys) = y :: dedupGo (y :: seen) ys from by
        simp [dedupGo, hy]]
      constructor
      · intro h
        rcases List.mem_cons.1 h with rfl | h'
        · exact ⟨List.mem_cons_self _ _, hy⟩
        · obtain ⟨hm, hs⟩ := (ih (y :: seen) x).1 h'
          exact ⟨List.mem_cons_of_mem _ hm,
            fun hc => hs (List.mem_cons_of_mem _ hc)⟩
      · rintro ⟨hm, hs⟩
        rcases List.mem_cons.1 hm with rfl | hm'
        · exact List.mem_cons_self _ _
        · by_cases hxy : x = y
          · subst hxy; exact List.mem_cons_self _ _
          · refine List.mem_cons_of_mem _ ((ih (y :: seen) x).2 ⟨hm', ?_⟩)
            intro hc
            exact (List.mem_cons.1 hc).elim hxy hs

theorem dedupGo_nodup {α : Type} [DecidableEq α] :
    ∀ (l : List α) (seen : List α), (dedupGo seen l).Nodup := by
  intro l
  induction l with
  | nil => intro seen; simp [dedupGo]
  | cons x xs ih =>
    intro seen
    by_cases hx : x ∈ seen
    · simpa [dedupGo, hx] using ih seen
    · simp only [dedupGo, hx, if_false, List.nodup_cons]
      refine ⟨fun hc => ?_, ih (x :: seen)⟩
      exact ((mem_dedupGo xs (x :: seen) x).1 hc).2 (List.mem_cons_self x seen)

theorem dedupGo_eq_self {α : Type} [DecidableEq α] :
    ∀ (l : List α) (seen : List α), l.Nodup → (∀ x ∈ l, x ∉ seen) →
      dedupGo seen l = l := by
  intro l
  induction l with
  | nil => intro seen _ _; simp [dedupGo]
  | cons x xs ih =>
    intro seen hnd hdis
    have hx : x ∉ seen := hdis x (List.mem_cons_self x xs)
    simp only [dedupGo, hx, if_false, List.cons.injEq, true_and]
    refine ih (x :: seen) (List.Nodup.of_cons hnd) ?_
    intro y hy
    simp only [List.mem_cons]
    rintro (rfl | hs)
    · exact (List.nodup_cons.1 hnd).1 hy
    · exact hdis y (List.mem_cons_of_mem _ hy) hs

theorem pyDedup_sublist {α : Type} [DecidableEq α] (l : List α) :
    (pyDedup l).Sublist l := dedupGo_sublist l []

theorem pyDedup_nodup {α : Type} [DecidableEq α] (l : List α) :
    (pyDedup l).Nodup := dedupGo_nodup l []

theorem mem_pyDedup {α : Type} [DecidableEq α] (l : List α) (x : α) :
    x ∈ pyDedup l ↔ x ∈ l := by
  simpa using mem_dedupGo l [] x

theorem pyDedup_eq_self {α : Type} [DecidableEq α] (l : List α) (h : l.Nodup) :
    pyDedup l = l := dedupGo_eq_self l [] h (by simp)

/-- The per-character choice list `(c.lower(), c.upper())` from `_case_variants`. -/
def casePair (c : Char) : List Char := [c.toLower, c.toUpper]

theorem length_case_prod :
    ∀ ext : PyStr, (listProd (ext.map casePair)).length = 2 ^ ext.length := by
  intro ext
  induction ext with
  | nil => simp [listProd]
  | cons c cs ih =>
    simp only [List.map_cons, listProd, casePair, List.flatMap_cons,
      List.flatMap_nil, List.length_append, List.length_map, List.length_nil,
      ih, List.length_cons, pow_succ]
    ring

theorem mem_case_prod {v : List Char} :
    ∀ ext : PyStr, v ∈ listProd (ext.map casePair) →
      (∀ c ∈ ext, (c.toUpper).toLower = c.toLower ∧
        (c.toLower).toLower = c.toLower) →
      v.map Char.toLower = ext.map Char.toLower := by
  induction v with
  | nil =>
    intro ext hv _
    cases ext with
    | nil => simp
    | cons c cs =>
      exfalso
      simp only [List.map_cons, listProd, casePair, List.mem_flatMap,
        List.mem_map, List.mem_cons] at hv
      obtain ⟨x, _, t, _, ht⟩ := hv
      exact List.cons_ne_nil x t ht
  | cons a v' ih =>
    intro ext hv hchars
    cases ext with
    | nil =>
      exfalso
      simp [listProd] at hv
    | cons c cs =>
      simp only [List.map_cons, listProd, casePair, List.mem_flatMap,
        List.mem_map, List.mem_cons] at hv
      obtain ⟨x, hx, t, ht, heq⟩ := hv
      have hxa : x = a := (List.cons.inj heq).1
      have htv : t = v' := (List.cons.inj heq).2
      subst hxa
      subst htv
      have hc := hchars c (List.mem_cons_self c cs)
      have hrest := ih cs ht (fun d hd => hchars d (List.mem_cons_of_mem _ hd))
      simp only [List.map_cons, hrest, List.cons.injEq, and_true]
      rcases hx with rfl | hx
      · exact hc.2
      · rcases hx with rfl | hfalse
        · exact hc.1
        · exact absurd hfalse (List.not_mem_nil _)

theorem nodup_case_prod :
    ∀ ext : PyStr, (∀ c ∈ ext, c.toLower ≠ c.toUpper) →
      (listProd (ext.map casePair)).Nodup := by
  intro ext
  induction ext with
  | nil => intro _; simp [listProd]
  | cons c cs ih =>
    intro hchars
    have hrest := ih (fun d hd => hchars d (List.mem_cons_of_mem _ hd))
    have hc := hchars c (List.mem_cons_self c cs)
    simp only [List.map_cons, listProd, casePair, List.flatMap_cons,
      List.flatMap_nil, List.append_nil]
    rw [List.nodup_append]
    refine ⟨hrest.map (fun t₁ t₂ h => (List.cons.inj h).2),
      hrest.map (fun t₁ t₂ h => (List.cons.inj h).2), ?_⟩
    intro v hv₁ hv₂
    simp only [List.mem_map] at hv₁ hv₂
    obtain ⟨t₁, _, h₁⟩ := hv₁
    obtain ⟨t₂, _, h₂⟩ := hv₂
    exact hc ((List.cons.inj (h₁.trans h₂.symm)).1)

/-- Claim C2 (amended): for a non-empty suffix each of whose characters
changes under case mapping (and whose case mappings are stable in the usual
sense), `_case_variants` returns exactly `2 ^ k` strings, pairwise distinct,
each case-insensitively equal to the suffix.  The amendment excludes the
empty suffix (the code returns `[]`, not one string) and suffixes with
case-invariant characters (which produce duplicated entries). -/
theorem case_variants_spec (ext : PyStr) (hne : ext ≠ [])
    (hchars : ∀ c ∈ ext, c.toLower ≠ c.toUpper ∧
      (c.toUpper).toLower = c.toLower ∧ (c.toLower).toLower = c.toLower) :
    (case_variants ext).length = 2 ^ ext.length ∧
    (case_variants ext).Nodup ∧
    ∀ v ∈ case_variants ext, v.map Char.toLower = ext.map Char.toLower := by
  have hv : case_variants ext = listProd (ext.map casePair) := by
    rw [case_variants, if_neg hne]; rfl
  refine ⟨hv ▸ length_case_prod ext,
    hv ▸ nodup_case_prod ext (fun c hc => (hchars c hc).1), ?_⟩
  intro v hvm
  exact mem_case_prod ext (hv ▸ hvm) (fun c hc => (hchars c hc).2)

/-- Witness for `case_variants_spec` at the suffix actually used by the code,
`"pdf"`: eight distinct variants, all case-insensitively equal to `"pdf"`. -/
theorem case_variants_spec_witness :
    (case_variants (pys "pdf")).length = 2 ^ (pys "pdf").length ∧
    (case_variants (pys "pdf")).Nodup ∧
    ∀ v ∈ case_variants (pys "pdf"),
      v.map Char.toLower = (pys "pdf").map Char.toLower :=
  case_variants_spec (pys "pdf") (by decide) (by decide)

/-- Counterexample to claim C2 as stated: on the empty suffix the code
returns the empty list (not `2 ^ 0 = 1` strings), and on the length-2
suffix `"a1"` (whose second character is case-invariant) the returned list
has duplicates, so its entries are not distinct. -/
theorem case_variants_claim_false :
    (case_variants (pys "")).length ≠ 2 ^ (pys "").length ∧
    ¬ (case_variants (pys "a1")).Nodup := by
  decide

/-! Library model: CPython 3.11 `urllib.parse` and `posixpath`, restricted to `str` inputs
with `allow_fragments=True`.  One idealization: the `ValueError` raised by
`urlsplit` on an authority containing an unbalanced square bracket is not
modelled; `urlsplitBracketsOk` captures the condition under which CPython
does not raise, and theorems that need it take it as a hypothesis. -/

/-- Python `s.find(c)`: index of the first occurrence of a character. -/
def findChar (c : Char) (s : PyStr) : Option Nat := s.findIdx? (fun x => x = c)

/-- Python `s.rfind(c)`: index of the last occurrence of a character. -/
def rfindChar (c : Char) (s : PyStr) : Option Nat :=
  match s.reverse.findIdx? (fun x => x = c) with
  | none => none
  | some i => some (s.length - 1 - i)

/-- Python `s.split(sep, 1)` at the first occurrence of `c`; when `c` is
absent this returns `(s, [])`, which coincides with CPython's guarded
`if c in url` non-split. -/
def splitOnceAt (c : Char) (s : PyStr) : PyStr × PyStr :=
  (s.takeWhile (fun x => x ≠ c), (s.dropWhile (fun x => x ≠ c)).drop 1)

/-- CPython removes tab, CR and LF from the URL before parsing
(`_UNSAFE_URL_BYTES_TO_REMOVE`). -/
def removeCtlChars (s : PyStr) : PyStr :=
  s.filter (fun c => ¬(c = '\t' ∨ c = '\x0d' ∨ c = '\n'))

/-- CPython `scheme_chars`: ASCII letters, digits, `+`, `-`, `.`. -/
def isSchemeChar (c : Char) : Bool :=
  c.isAlpha || c.isDigit || c = '+' || c = '-' || c = '.'

/-- Scheme extraction step of `urlsplit`: split at the first `:` when the
prefix before it is a well-formed scheme, lowercasing it. -/
def splitScheme (url : PyStr) : PyStr × PyStr :=
  match findChar ':' url with
  | none => ([], url)
  | some i =>
    if 0 < i ∧ (url.headD ' ').isAlpha ∧ (url.take i).all isSchemeChar
    then (pyLower (url.take i), url.drop (i + 1))
    else ([], url)

/-- CPython `_splitnetloc`: the authority runs from position 2 up to the
first `/`, `?` or `#`. -/
def splitNetloc (url : PyStr) : PyStr × PyStr :=
  let rest := url.drop 2
  let n := rest.findIdx (fun c => c = '/' ∨ c = '?' ∨ c = '#')
  (rest.take n, rest.drop n)

structure SplitResult where
  scheme : PyStr
  netloc : PyStr
  path : PyStr
  query : PyStr
  fragment : PyStr
deriving DecidableEq, Repr

/-- CPython `urlsplit(url, scheme=default, allow_fragments=True)`. -/
def urlsplitD (defaultScheme : PyStr) (url0 : PyStr) : SplitResult :=
  let url1 := removeCtlChars url0
  let sr := splitScheme url1
  let scheme := if sr.1 = [] then defaultScheme else sr.1
  let url2 := sr.2
  let nr := if url2.take 2 = pys "//" then splitNetloc url2 else ([], url2)
  let fr := splitOnceAt '#' nr.2
  let qr := splitOnceAt '?' fr.1
  ⟨scheme, nr.1, qr.1, qr.2, fr.2⟩

/-- CPython `urlsplit` with the default empty scheme. -/
def urlsplit (url : PyStr) : SplitResult := urlsplitD [] url

/-- The condition under which CPython `urlsplit` does not raise
`ValueError`: square brackets in the authority are balanced. -/
def urlsplitBracketsOk (url : PyStr) : Bool :=
  let nl := (urlsplit url).netloc
  (nl.contains '[') = (nl.contains ']')

/-- CPython `uses_relative`. -/
def usesRelative : List PyStr :=
  [pys "", pys "ftp", pys "http", pys "gopher", pys "nntp", pys "imap",
   pys "wais", pys "file", pys "https", pys "shttp", pys "mms",
   pys "prospero", pys "rtsp", pys "rtspu", pys "sftp",
   pys "svn", pys "svn+ssh", pys "ws", pys "wss"]

/-- CPython `uses_netloc`. -/
def usesNetloc : List PyStr :=
  [pys "", pys "ftp", pys "http", pys "gopher", pys "nntp", pys "telnet",
   pys "imap", pys "wais", pys "file", pys "mms", pys "https", pys "shttp",
   pys "snews", pys "prospero", pys "rtsp", pys "rtspu", pys "rsync",
   pys "svn", pys "svn+ssh", pys "sftp", pys "nfs", pys "git", pys "git+ssh",
   pys "ws", pys "wss"]

/-- CPython `uses_params`. -/
def usesParams : List PyStr :=
  [pys "", pys "ftp", pys "hdl", pys "prospero", pys "http", pys "imap",
   pys "https", pys "shttp", pys "rtsp", pys "rtspu", pys "sip", pys "sips",
   pys "mms", pys "sftp", pys "tel"]

/-- CPython `_splitparams`; its callers guard on `';' in url`, and with no
semicolon present this returns `(url, '')`. -/
def splitparams (url : PyStr) : PyStr × PyStr :=
  if url.contains '/' then
    match rfindChar '/' url with
    | some s =>
      (match findChar ';' (url.drop s) with
       | none => (url, [])
       | some j => (url.take (s + j), url.drop (s + j + 1)))
    | none => (url, [])
  else
    match findChar ';' url with
    | none => (url, [])
    | some i => (url.take i, url.drop (i + 1))

structure ParseResult where
  scheme : PyStr
  netloc : PyStr
  path : PyStr
  params : PyStr
  query : PyStr
  fragment : PyStr
deriving DecidableEq, Repr

/-- CPython `urlparse(url, scheme=default)`: `urlsplit` plus the params
split on the last path segment for schemes in `uses_params`. -/
def urlparseD (defaultScheme : PyStr) (url : PyStr) : ParseResult :=
  let s := urlsplitD defaultScheme url
  if s.scheme ∈ usesParams ∧ s.path.contains ';' then
    let pr := splitparams s.path
    ⟨s.scheme, s.netloc, pr.1, pr.2, s.query, s.fragment⟩
  else ⟨s.scheme, s.netloc, s.path, [], s.query, s.fragment⟩

/-- CPython `urlparse` with the default empty scheme. -/
def pyUrlparse (url : PyStr) : ParseResult := urlparseD [] url

/-- CPython `urlunsplit`. -/
def urlunsplit (scheme netloc url query fragment : PyStr) : PyStr :=
  let url :=
    if netloc ≠ [] ∨ (scheme ≠ [] ∧ scheme ∈ usesNetloc ∧ url.take 2 ≠ pys "//")
    then pys "//" ++ netloc ++
      (if url ≠ [] ∧ url.take 1 ≠ pys "/" then pys "/" ++ url else url)
    else url
  let url := if scheme ≠ [] then scheme ++ [':'] ++ url else url
  let url := if query ≠ [] then url ++ ['?'] ++ query else url
  if fragment ≠ [] then url ++ ['#'] ++ fragment else url

/-- CPython `urlunparse`. -/
def urlunparse (r : ParseResult) : PyStr :=
  let url := if r.params ≠ [] then r.path ++ [';'] ++ r.params else r.path
  urlunsplit r.scheme r.netloc url r.query r.fragment

/-- CPython `filter(None, segments[1:-1])`: drop empty segments strictly
between the first and the last. -/
def midFilter (l : List PyStr) : List PyStr :=
  if l.length ≤ 1 then l
  else l.take 1 ++ ((l.drop 1).dropLast.filter (fun s => s ≠ [])) ++ [l.getLastD []]

/-- Dot-segment resolution loop of CPython `urljoin`: `..` pops (ignoring
underflow), `.` is dropped, other segments are appended. -/
def dotResolve (segs : List PyStr) : List PyStr :=
  segs.foldl
    (fun acc seg =>
      if seg = pys ".." then acc.dropLast
      else if seg = pys "." then acc
      else acc ++ [seg]) []

/-- CPython `urljoin(base, url)` with `allow_fragments=True`. -/
def urljoin (base url : PyStr) : PyStr :=
  if base = [] then url
  else if url = [] then base
  else
    let b := urlparseD [] base
    let r := urlparseD b.scheme url
    if r.scheme ≠ b.scheme ∨ r.scheme ∉ usesRelative then url
    else if r.scheme ∈ usesNetloc ∧ r.netloc ≠ [] then
      urlunparse ⟨r.scheme, r.netloc, r.path, r.params, r.query, r.fragment⟩
    else
      let netloc := if r.scheme ∈ usesNetloc then b.netloc else r.netloc
      if r.path = [] ∧ r.params = [] then
        let query := if r.query = [] then b.query else r.query
        urlunparse ⟨r.scheme, netloc, b.path, b.params, query, r.fragment⟩
      else
        let baseParts := b.path.splitOn '/'
        let baseParts :=
          if baseParts.getLastD [] ≠ [] then baseParts.dropLast else baseParts
        let segments :=
          if r.path.take 1 = pys "/" then r.path.splitOn '/'
          else midFilter (baseParts ++ r.path.splitOn '/')
        let resolved := dotResolve segments
        let resolved :=
          if segments.getLastD [] = pys "." ∨ segments.getLastD [] = pys ".."
          then resolved ++ [[]] else resolved
        let joined := List.intercalate (pys "/") resolved
        let path := if joined = [] then pys "/" else joined
        urlunparse ⟨r.scheme, netloc, path, r.params, r.query, r.fragment⟩

/-- CPython `posixpath.basename`: everything after the last `/`. -/
def pyBasename (p : PyStr) : PyStr :=
  (p.reverse.takeWhile (fun c => c ≠ '/')).reverse

/-- CPython `posixpath.splitext` (`genericpath._splitext` with `sep='/'`,
no `altsep`, `extsep='.'`): split at the last dot of the final component,
unless that component consists only of leading dots up to it. -/
def pySplitext (p : PyStr) : PyStr × PyStr :=
  match rfindChar '.' p with
  | none => (p, [])
  | some d =>
    let fi := match rfindChar '/' p with | none => 0 | some i => i + 1
    if fi ≤ d ∧ ((p.drop fi).take (d - fi)).any (fun c => c ≠ '.')
    then (p.take d, p.drop d)
    else (p, [])

/-! Link discovery (`_extract_pdf_links` and the guessed pass of
`download_ar_generic`, `main.py` lines 296-305 and 350-370).  The HTML
parser is the capability named by the spec: markup is represented by the
list of hyperlink targets it yields, in document order. -/

/-- The accumulator step of an append-style fold driven by an optional
keep function. -/
def optStep {α β : Type} (f : α → Option β) (a : List β) (x : α) : List β :=
  match f x with | some b => a ++ [b] | none => a

theorem foldl_append_opt {α β : Type} (f : α → Option β) :
    ∀ (l : List α) (acc : List β),
      l.foldl (optStep f) acc = acc ++ l.filterMap f := by
  intro l
  induction l with
  | nil => intro acc; simp
  | cons x xs ih =>
    intro acc
    cases hfx : f x <;>
      simp [List.foldl_cons, optStep, hfx, ih, List.filterMap_cons]

theorem foldl_append_flat {α β : Type} (g : α → List β) :
    ∀ (l : List α) (acc : List β),
      l.foldl (fun a x => a ++ g x) acc = acc ++ l.flatMap g := by
  intro l
  induction l with
  | nil => intro acc; simp
  | cons x xs ih => intro acc; simp [List.foldl_cons, ih]

/-- The keep-and-normalize rule applied by `_extract_pdf_links` to one
hyperlink target: strip it; keep it when its lowercased text ends in
`".pdf"`, passing it through unchanged when its parsed scheme is `http` or
`https` and resolving it against the listing page's address otherwise. -/
def keptCandidate (base h0 : PyStr) : Option PyStr :=
  let href := pyStrip h0
  if pyEndsWith (pys ".pdf") (pyLower href) then
    some (if (pyUrlparse href).scheme = pys "http" ∨
             (pyUrlparse href).scheme = pys "https"
          then href else urljoin base href)
  else none

/-- Function `_extract_pdf_links` from `main.py` (lines 296-305): the explicit
discovery pass, a fold over the hyperlink targets followed by
`list(dict.fromkeys(...))`. -/
def extract_pdf_links (hrefs : List PyStr) (base : PyStr) : List PyStr :=
  pyDedup (hrefs.foldl
    (fun links h0 =>
      let href := pyStrip h0
      if pyEndsWith (pys ".pdf") (pyLower href) ∧
         ((pyUrlparse href).scheme = pys "http" ∨
          (pyUrlparse href).scheme = pys "https")
      then links ++ [href]
      else if pyEndsWith (pys ".pdf") (pyLower href)
      then links ++ [urljoin base href]
      else links) [])

theorem extract_step_eq (base : PyStr) (links : List PyStr) (h0 : PyStr) :
    (let href := pyStrip h0
     if pyEndsWith (pys ".pdf") (pyLower href) ∧
        ((pyUrlparse href).scheme = pys "http" ∨
         (pyUrlparse href).scheme = pys "https")
     then links ++ [href]
     else if pyEndsWith (pys ".pdf") (pyLower href)
     then links ++ [urljoin base href]
     else links)
      = optStep (keptCandidate base) links h0 := by
  rw [optStep]
  by_cases h1 : (pyEndsWith (pys ".pdf") (pyLower (pyStrip h0)) : Prop)
  · by_cases h2 : (pyUrlparse (pyStrip h0)).scheme = pys "http" ∨
        (pyUrlparse (pyStrip h0)).scheme = pys "https"
    · simp [keptCandidate, h1, h2]
    · simp [keptCandidate, h1, h2]
  · simp [keptCandidate, h1]

theorem extract_pdf_links_eq (hrefs : List PyStr) (base : PyStr) :
    extract_pdf_links hrefs base
      = pyDedup (hrefs.filterMap (keptCandidate base)) := by
  have hstep : (hrefs.foldl
      (fun links h0 =>
        let href := pyStrip h0
        if pyEndsWith (pys ".pdf") (pyLower href) ∧
           ((pyUrlparse href).scheme = pys "http" ∨
            (pyUrlparse href).scheme = pys "https")
        then links ++ [href]
        else if pyEndsWith (pys ".pdf") (pyLower href)
        then links ++ [urljoin base href]
        else links) [])
      = hrefs.foldl (optStep (keptCandidate base)) [] := by
    have hfun : (fun (links : List PyStr) (h0 : PyStr) =>
        let href := pyStrip h0
        if pyEndsWith (pys ".pdf") (pyLower href) ∧
           ((pyUrlparse href).scheme = pys "http" ∨
            (pyUrlparse href).scheme = pys "https")
        then links ++ [href]
        else if pyEndsWith (pys ".pdf") (pyLower href)
        then links ++ [urljoin base href]
        else links)
        = optStep (keptCandidate base) := by
      funext a x
      exact extract_step_eq base a x
    rw [hfun]
  rw [extract_pdf_links, hstep, foldl_append_opt, List.nil_append]

theorem kept_of_absolute (base h : PyStr)
    (h1 : pyEndsWith (pys ".pdf") (pyLower (pyStrip h)))
    (h2 : (pyUrlparse (pyStrip h)).scheme = pys "http" ∨
          (pyUrlparse (pyStrip h)).scheme = pys "https") :
    keptCandidate base h = some (pyStrip h) := by
  simp [keptCandidate, h1, h2]

theorem filterMap_kept_all (base : PyStr) :
    ∀ hrefs : List PyStr,
      (∀ h ∈ hrefs, pyEndsWith (pys ".pdf") (pyLower (pyStrip h)) ∧
        ((pyUrlparse (pyStrip h)).scheme = pys "http" ∨
         (pyUrlparse (pyStrip h)).scheme = pys "https")) →
      hrefs.filterMap (keptCandidate base) = hrefs.map pyStrip := by
  intro hrefs
  induction hrefs with
  | nil => intro _; simp
  | cons h hs ih =>
    intro hyp
    have h0 := hyp h (List.mem_cons_self h hs)
    rw [List.filterMap_cons, kept_of_absolute base h h0.1 h0.2, List.map_cons,
      ih (fun x hx => hyp x (List.mem_cons_of_mem _ hx))]

/-- Claim C3 (amended): the explicit pass keeps exactly the stripped
hyperlink targets whose full lowercased text ends in `".pdf"` (the parsed
path component is not what is tested), passes a kept target through
unchanged when its scheme is `http` or `https`, resolves every other kept
target against the listing page's address with `urljoin`, and returns the
results deduplicated by first occurrence in document order.  In
particular, markup whose targets are all distinct suffix-matching
absolute `http(s)` hyperlinks yields exactly those targets in document
order. -/
theorem extract_pdf_links_spec :
    (∀ (hrefs : List PyStr) (base : PyStr),
      extract_pdf_links hrefs base
        = pyDedup (hrefs.filterMap (keptCandidate base))) ∧
    ∀ (hrefs : List PyStr) (base : PyStr),
      (∀ h ∈ hrefs, pyEndsWith (pys ".pdf") (pyLower (pyStrip h)) ∧
        ((pyUrlparse (pyStrip h)).scheme = pys "http" ∨
         (pyUrlparse (pyStrip h)).scheme = pys "https")) →
      (hrefs.map pyStrip).Nodup →
      extract_pdf_links hrefs base = hrefs.map pyStrip := by
  refine ⟨extract_pdf_links_eq, ?_⟩
  intro hrefs base habs hnd
  rw [extract_pdf_links_eq, filterMap_kept_all base hrefs habs,
    pyDedup_eq_self _ hnd]

/-- Witness for `extract_pdf_links_spec`: two distinct absolute targets
with the suffix (one upper-cased) are returned as-is, in document order. -/
theorem extract_pdf_links_spec_witness :
    extract_pdf_links [pys "http://x/a.pdf", pys "https://y/b.PDF"]
        (pys "http://l/")
      = [pys "http://x/a.pdf", pys "https://y/b.PDF"] := by
  have h := extract_pdf_links_spec.2
    [pys "http://x/a.pdf", pys "https://y/b.PDF"] (pys "http://l/")
    (by decide) (by decide)
  simpa using h

/-- The test claim C3 ascribes to the code: the target's parsed path
component ends in the suffix case-insensitively (spec wording). -/
def pathEndsInPdf (h : PyStr) : Bool :=
  pyEndsWith (pys ".pdf") (pyLower (pyUrlparse h).path)

/-- Counterexample to claim C3 as stated: the pass drops a target whose
path ends in `".pdf"` but whose full text does not (a query-string
suffix), and keeps a target whose full text ends in `".pdf"` even though
its path does not.  So "keeps exactly the targets whose path ends in the
suffix" is false of the code. -/
theorem extract_pdf_links_claim_false :
    extract_pdf_links [pys "http://x/a.pdf?dl=1", pys "http://x/a?f=.pdf"]
        (pys "http://l/")
      = [pys "http://x/a?f=.pdf"] ∧
    pathEndsInPdf (pys "http://x/a.pdf?dl=1") = true ∧
    pathEndsInPdf (pys "http://x/a?f=.pdf") = false := by
  decide

/-- The per-target keep rule of the guessed pass's primary collection
(`main.py` lines 355-359): the stem of a target whose file name's
extension is `".pdf"` case-insensitively. -/
def pdfStemKeep (h : PyStr) : Option PyStr :=
  let re := pySplitext (pyBasename h)
  if re.2 ≠ [] ∧ pyLower (re.2.drop 1) = pys "pdf" then some re.1 else none

/-- The per-target keep rule of the guessed pass's fallback collection
(`main.py` lines 360-365): the stem of any target, kept when non-empty. -/
def anyStemKeep (h : PyStr) : Option PyStr :=
  let root := (pySplitext (pyBasename h)).1
  if root ≠ [] then some root else none

/-- The guessed candidate address format of `main.py` line 369:
`f"{base_url}/{ar_number}/{root}.{v}"`. -/
def guessAddr (base_url ar root v : PyStr) : PyStr :=
  base_url ++ pys "/" ++ ar ++ pys "/" ++ root ++ pys "." ++ v

/-- The guessed pass of `download_ar_generic` (`main.py` lines 350-369):
collect stems of suffix-matching targets, fall back to all non-empty
stems when none match, deduplicate, and emit one candidate per case
variant of `"pdf"` per stem. -/
def guessed_links (hrefs : List PyStr) (ar base_url : PyStr) : List PyStr :=
  let hs := hrefs.map pyStrip
  let primary := hs.foldl
    (fun acc h =>
      let re := pySplitext (pyBasename h)
      if re.2 ≠ [] ∧ pyLower (re.2.drop 1) = pys "pdf"
      then acc ++ [re.1] else acc) []
  let cands0 :=
    if primary = [] then
      hs.foldl
        (fun acc h =>
          let root := (pySplitext (pyBasename h)).1
          if root ≠ [] then acc ++ [root] else acc) []
    else primary
  let cands := pyDedup cands0
  cands.foldl
    (fun acc root =>
      acc ++ (case_variants (pys "pdf")).map (guessAddr base_url ar root)) []

/-- The stem list the guessed pass works from, written declaratively:
stems of suffix-matching targets, else non-empty stems of all targets. -/
def guessedStems (hrefs : List PyStr) : List PyStr :=
  let hs := hrefs.map pyStrip
  if hs.filterMap pdfStemKeep = [] then hs.filterMap anyStemKeep
  else hs.filterMap pdfStemKeep

theorem guessed_primary_step (acc : List PyStr) (h : PyStr) :
    (let re := pySplitext (pyBasename h)
     if re.2 ≠ [] ∧ pyLower (re.2.drop 1) = pys "pdf"
     then acc ++ [re.1] else acc)
      = optStep pdfStemKeep acc h := by
  by_cases hc1 : (pySplitext (pyBasename h)).2 = [] <;>
  by_cases hc2 : pyLower (List.tail (pySplitext (pyBasename h)).2) = pys "pdf" <;>
    simp [optStep, pdfStemKeep, hc1, hc2, List.drop_one]

theorem guessed_fallback_step (acc : List PyStr) (h : PyStr) :
    (let root := (pySplitext (pyBasename h)).1
     if root ≠ [] then acc ++ [root] else acc)
      = optStep anyStemKeep acc h := by
  by_cases hc : (pySplitext (pyBasename h)).1 ≠ []
  · simp [optStep, anyStemKeep, hc]
  · simp [optStep, anyStemKeep, hc]

theorem sum_map_const_eight :
    ∀ l : List PyStr, (l.map (fun _ => (8 : Nat))).sum = 8 * l.length := by
  intro l
  induction l with
  | nil => simp
  | cons x xs ih =>
    simp only [List.map_cons, List.sum_cons, ih, List.length_cons]
    ring

/-- Claim C4 (amended): with an alternate host set, the guessed pass emits,
for every distinct stem — stems of suffix-matching targets, falling back
to the *non-empty* stems of every target when none match — one candidate
`base_url/ar/stem.v` for each of the eight case variants of `"pdf"`; the
amendment adds the non-emptiness filter the code applies in the fallback. -/
theorem guessed_links_spec :
    ∀ (hrefs : List PyStr) (ar base_url : PyStr),
      guessed_links hrefs ar base_url
        = (pyDedup (guessedStems hrefs)).flatMap
            (fun root => (case_variants (pys "pdf")).map
              (guessAddr base_url ar root)) ∧
      (guessed_links hrefs ar base_url).length
        = 8 * (pyDedup (guessedStems hrefs)).length := by
  intro hrefs ar base_url
  have hprim : ((hrefs.map pyStrip).foldl
      (fun acc h =>
        let re := pySplitext (pyBasename h)
        if re.2 ≠ [] ∧ pyLower (re.2.drop 1) = pys "pdf"
        then acc ++ [re.1] else acc) [])
      = (hrefs.map pyStrip).filterMap pdfStemKeep := by
    have hf : (fun (acc : List PyStr) (h : PyStr) =>
        let re := pySplitext (pyBasename h)
        if re.2 ≠ [] ∧ pyLower (re.2.drop 1) = pys "pdf"
        then acc ++ [re.1] else acc) = optStep pdfStemKeep := by
      funext a x; exact guessed_primary_step a x
    rw [hf, foldl_append_opt, List.nil_append]
  have hfall : ((hrefs.map pyStrip).foldl
      (fun acc h =>
        let root := (pySplitext (pyBasename h)).1
        if root ≠ [] then acc ++ [root] else acc) [])
      = (hrefs.map pyStrip).filterMap anyStemKeep := by
    have hf : (fun (acc : List PyStr) (h : PyStr) =>
        let root := (pySplitext (pyBasename h)).1
        if root ≠ [] then acc ++ [root] else acc) = optStep anyStemKeep := by
      funext a x; exact guessed_fallback_step a x
    rw [hf, foldl_append_opt, List.nil_append]
  have hmain : guessed_links hrefs ar base_url
      = (pyDedup (guessedStems hrefs)).flatMap
          (fun root => (case_variants (pys "pdf")).map
            (guessAddr base_url ar root)) := by
    rw [guessed_links, guessedStems]
    rw [hprim, hfall, foldl_append_flat, List.nil_append]
  refine ⟨hmain, ?_⟩
  rw [hmain, List.length_flatMap]
  have hlen : ∀ root : PyStr,
      ((case_variants (pys "pdf")).map (guessAddr base_url ar root)).length
        = 8 := by
    intro root; rw [List.length_map]; rfl
  calc ((pyDedup (guessedStems hrefs)).map
      (fun root => ((case_variants (pys "pdf")).map
        (guessAddr base_url ar root)).length)).sum
      = ((pyDedup (guessedStems hrefs)).map (fun _ => (8 : Nat))).sum := by
        exact congrArg List.sum (List.map_congr_left (fun r _ => hlen r))
    _ = 8 * (pyDedup (guessedStems hrefs)).length :=
        sum_map_const_eight _

/-- Follows claim C4's words for the fallback branch: when no target
matches the suffix, use "the stems of every hyperlink target" — with no
non-emptiness filter.  Kept for comparison with `guessed_links`. -/
def guessed_links_claimed (hrefs : List PyStr) (ar base_url : PyStr) :
    List PyStr :=
  let hs := hrefs.map pyStrip
  let primary := hs.filterMap pdfStemKeep
  let cands := pyDedup
    (if primary = [] then hs.map (fun h => (pySplitext (pyBasename h)).1)
     else primary)
  cands.flatMap
    (fun root => (case_variants (pys "pdf")).map (guessAddr base_url ar root))

/-- Counterexample to claim C4 as stated: on a listing with targets
`"sub/"` and `"doc"` no target matches the suffix; the stem of `"sub/"`
is the empty string, which the claim's fallback ("the stems of every
hyperlink target") would keep, emitting 16 candidates, while the code
filters it out and emits only the 8 candidates for stem `"doc"`. -/
theorem guessed_links_claim_false :
    guessed_links [pys "sub/", pys "doc"] (pys "123") (pys "http://alt")
      ≠ guessed_links_claimed [pys "sub/", pys "doc"] (pys "123")
          (pys "http://alt") ∧
    (guessed_links [pys "sub/", pys "doc"] (pys "123")
        (pys "http://alt")).length = 8 ∧
    (guessed_links_claimed [pys "sub/", pys "doc"] (pys "123")
        (pys "http://alt")).length = 16 := by
  decide

/-! Candidate merge (`main.py` line 370). -/

/-- The guessed contribution to the candidate list: `more_links` stays
empty unless `base_url` is set (`main.py` lines 350-351). -/
def moreLinksOf (hrefs : List PyStr) (ar : PyStr) : Option PyStr → List PyStr
  | some bu => guessed_links hrefs ar bu
  | none => []

/-- Line 370 of `main.py`:
`all_links = list(dict.fromkeys(pdf_links + more_links))`. -/
def all_links (hrefs : List PyStr) (base ar : PyStr)
    (base_url : Option PyStr) : List PyStr :=
  pyDedup (extract_pdf_links hrefs base ++ moreLinksOf hrefs ar base_url)

/-- Worker for `keepFirstSpec`: `earlier` accumulates *every* element
scanned so far, kept or not. -/
def scannedKeepFirst {α : Type} [DecidableEq α] (earlier : List α) :
    List α → List α
  | [] => []
  | x :: xs =>
    if x ∈ earlier then scannedKeepFirst (x :: earlier) xs
    else x :: scannedKeepFirst (x :: earlier) xs

/-- Follows claim C8's words for the deduplication: traverse the merged
candidate list in insertion order and keep a candidate exactly when no
equal address string occurred *anywhere earlier* in the list — so of
every two equal candidates only the first is kept, and insertion order
is otherwise preserved.  Unlike `dedupGo` (whose accumulator holds only
the kept elements), the accumulator here holds every element already
scanned. -/
def keepFirstSpec {α : Type} [DecidableEq α] (l : List α) : List α :=
  scannedKeepFirst [] l

theorem dedupGo_eq_scannedKeepFirst {α : Type} [DecidableEq α] :
    ∀ (l seen earlier : List α), (∀ y : α, y ∈ seen ↔ y ∈ earlier) →
      dedupGo seen l = scannedKeepFirst earlier l := by
  intro l
  induction l with
  | nil => intro seen earlier _; rfl
  | cons x xs ih =>
    intro seen earlier hequiv
    by_cases hx : x ∈ seen
    · rw [show dedupGo seen (x :: xs) = dedupGo seen xs from by
        simp [dedupGo, hx]]
      rw [show scannedKeepFirst earlier (x :: xs)
          = scannedKeepFirst (x :: earlier) xs from by
        simp [scannedKeepFirst, (hequiv x).1 hx]]
      refine ih seen (x :: earlier) (fun y => ?_)
      rw [hequiv y, List.mem_cons]
      constructor
      · exact Or.inr
      · intro hy
        rcases hy with heq | hy2
        · rw [heq]; exact (hequiv x).1 hx
        · exact hy2
    · have hxe : x ∉ earlier := fun hc => hx ((hequiv x).2 hc)
      rw [show dedupGo seen (x :: xs) = x :: dedupGo (x :: seen) xs from by
        simp [dedupGo, hx]]
      rw [show scannedKeepFirst earlier (x :: xs)
          = x :: scannedKeepFirst (x :: earlier) xs from by
        simp [scannedKeepFirst, hxe]]
      refine congrArg (x :: ·) (ih (x :: seen) (x :: earlier) (fun y => ?_))
      rw [List.mem_cons, List.mem_cons, hequiv y]

theorem pyDedup_eq_keepFirstSpec {α : Type} [DecidableEq α] (l : List α) :
    pyDedup l = keepFirstSpec l :=
  dedupGo_eq_scannedKeepFirst l [] [] (fun _ => Iff.rfl)

theorem dedupGo_append_left {α : Type} [DecidableEq α] :
    ∀ (l₁ : List α) (seen l₂ : List α), l₁.Nodup →
      (∀ x ∈ l₁, x ∉ seen) →
      dedupGo seen (l₁ ++ l₂) = l₁ ++ dedupGo (l₁.reverse ++ seen) l₂ := by
  intro l₁
  induction l₁ with
  | nil => intro seen l₂ _ _; simp
  | cons x xs ih =>
    intro seen l₂ hnd hdis
    have hx : x ∉ seen := hdis x (List.mem_cons_self x xs)
    rw [List.cons_append,
      show dedupGo seen (x :: (xs ++ l₂))
        = x :: dedupGo (x :: seen) (xs ++ l₂) from by simp [dedupGo, hx],
      ih (x :: seen) l₂ (List.Nodup.of_cons hnd) ?_]
    · rw [List.cons_append, List.reverse_cons, List.append_assoc]
      rfl
    · intro y hy
      rw [List.mem_cons]
      rintro (rfl | hs)
      · exact (List.nodup_cons.1 hnd).1 hy
      · exact hdis y (List.mem_cons_of_mem _ hy) hs

theorem extract_pdf_links_nodup (hrefs : List PyStr) (base : PyStr) :
    (extract_pdf_links hrefs base).Nodup := by
  rw [extract_pdf_links]
  exact pyDedup_nodup _

/-- Claim C8 (amended): the merged candidate list is deduplicated by
*exact address string* equality.  Conjunct 1 equates the merge with the
claim's own keep-the-first-occurrence scan, so of every two textually
equal candidates only the first is kept and insertion order is otherwise
preserved; conjunct 2 decomposes the merge as the full explicit-pass
list followed (in order) by exactly the guessed entries not equal to any
explicit entry, so explicit-pass entries come first; the remaining
conjuncts record duplicate-freedom, order preservation and the exact
membership of the result. -/
theorem all_links_spec :
    ∀ (hrefs : List PyStr) (base ar : PyStr) (bu : Option PyStr),
      all_links hrefs base ar bu
        = keepFirstSpec
            (extract_pdf_links hrefs base ++ moreLinksOf hrefs ar bu) ∧
      all_links hrefs base ar bu
        = extract_pdf_links hrefs base
          ++ dedupGo (extract_pdf_links hrefs base).reverse
              (moreLinksOf hrefs ar bu) ∧
      (∀ x, x ∈ dedupGo (extract_pdf_links hrefs base).reverse
            (moreLinksOf hrefs ar bu)
          ↔ x ∈ moreLinksOf hrefs ar bu ∧
            x ∉ extract_pdf_links hrefs base) ∧
      (all_links hrefs base ar bu).Nodup ∧
      (all_links hrefs base ar bu).Sublist
        (extract_pdf_links hrefs base ++ moreLinksOf hrefs ar bu) ∧
      ∀ x, x ∈ all_links hrefs base ar bu ↔
        x ∈ extract_pdf_links hrefs base ++ moreLinksOf hrefs ar bu := by
  intro hrefs base ar bu
  refine ⟨pyDedup_eq_keepFirstSpec _, ?_, ?_, pyDedup_nodup _,
    pyDedup_sublist _, fun x => mem_pyDedup _ x⟩
  · rw [all_links, pyDedup,
      dedupGo_append_left (extract_pdf_links hrefs base) []
        (moreLinksOf hrefs ar bu) (extract_pdf_links_nodup hrefs base)
        (fun x _ => List.not_mem_nil x),
      List.append_nil]
  · intro x
    rw [mem_dedupGo, List.mem_reverse]

/-- The spec's normalization of a final address: scheme, host and path
(scheme already lowercased by parsing; the host compared case-insensitively). -/
def normalizedAddr (u : PyStr) : PyStr × PyStr × PyStr :=
  ((urlsplit u).scheme, pyLower (urlsplit u).netloc, (urlsplit u).path)

/-- Counterexample to claim C8 as stated: two candidates that are equal
under scheme+host+path normalization but textually different (an
upper-cased scheme) are *both* kept by the merge — deduplication is by
exact string equality, not by normalized address. -/
theorem all_links_claim_false :
    normalizedAddr (pys "http://x/a.pdf")
      = normalizedAddr (pys "HTTP://x/a.pdf") ∧
    pys "http://x/a.pdf" ≠ pys "HTTP://x/a.pdf" ∧
    all_links [pys "http://x/a.pdf", pys "HTTP://x/a.pdf"]
        (pys "http://l/") (pys "1") none
      = [pys "http://x/a.pdf", pys "HTTP://x/a.pdf"] := by
  decide

/-! Retrieval-upload pipeline (`_try_get`, lines 312-318, and the
download loop of `download_ar_generic`, lines 371-382).  The HTTP and
storage effects appear as outcome-valued environments; exceptions are
`Except.error`. -/

/-- Outcome of `session.get(url)` followed by `raise_for_status()`:
a body, an HTTP status error (`requests.HTTPError`), or any other
exception (connection failure, timeout after retries, ...). -/
inductive FetchOutcome where
  | body (b : PyBytes)
  | httpStatusErr
  | transportExn
deriving DecidableEq, Repr

/-- Outcome of `dbx.files_upload(...)`. -/
inductive UploadOutcome where
  | ok
  | exn
deriving DecidableEq, Repr

/-- Function `_try_get` (lines 312-318): returns the body on success and `None` on
`requests.HTTPError`; any other exception propagates. -/
def try_get (fetch : PyStr → FetchOutcome) (url : PyStr) :
    Except Unit (Option PyBytes) :=
  match fetch url with
  | .body b => .ok (some b)
  | .httpStatusErr => .ok none
  | .transportExn => .error ()

/-- The stored file name derived from a candidate address (line 377):
`os.path.basename(urlparse(url).path) or "file.pdf"`. -/
def uploadName (url : PyStr) : PyStr :=
  let fn := pyBasename (pyUrlparse url).path
  if fn = [] then pys "file.pdf" else fn

/-- The body of one download-loop iteration inside its `try` (lines
373-379): fetch, skip empty/absent content, upload.  `.ok true` means the
candidate was uploaded and counted. -/
def fetch_upload (fetch : PyStr → FetchOutcome)
    (upload : PyStr → PyBytes → UploadOutcome) (srcdata url : PyStr) :
    Except Unit Bool :=
  match try_get fetch url with
  | .error _ => .error ()
  | .ok none => .ok false
  | .ok (some content) =>
    if content = [] then .ok false
    else
      match upload (srcdata ++ pys "/" ++ uploadName url) content with
      | .ok => .ok true
      | .exn => .error ()

/-- The per-candidate contribution after the catch-all
`except Exception` of lines 380-381: an exception counts as failure. -/
def candidateScore (fetch : PyStr → FetchOutcome)
    (upload : PyStr → PyBytes → UploadOutcome) (srcdata url : PyStr) : Nat :=
  match fetch_upload fetch upload srcdata url with
  | .ok true => 1
  | _ => 0

/-- The retrieval-upload loop of `download_ar_generic` (lines 371-382). -/
def download_loop (fetch : PyStr → FetchOutcome)
    (upload : PyStr → PyBytes → UploadOutcome) (srcdata : PyStr)
    (urls : List PyStr) : Nat :=
  urls.foldl (fun count url => count + candidateScore fetch upload srcdata url) 0

theorem download_loop_shift (f : PyStr → Nat) :
    ∀ (urls : List PyStr) (init : Nat),
      urls.foldl (fun c u => c + f u) init
        = init + urls.foldl (fun c u => c + f u) 0 := by
  intro urls
  induction urls with
  | nil => intro init; simp
  | cons u us ih =>
    intro init
    rw [List.foldl_cons, List.foldl_cons, ih (init + f u), ih (0 + f u)]
    omega

/-- Claim C1: the pipeline is total — every exception inside a single
candidate's fetch or upload is caught and scored as that candidate's
failure, so each candidate contributes its own score independently of the
others (no outcome aborts the batch), a candidate whose fetch raises
contributes zero, and a candidate list on which every fetch fails yields
success count `0`. -/
theorem download_loop_spec :
    (∀ (fetch : PyStr → FetchOutcome) (upload : PyStr → PyBytes → UploadOutcome)
        (srcdata u : PyStr) (urls : List PyStr),
      download_loop fetch upload srcdata (u :: urls)
        = candidateScore fetch upload srcdata u
          + download_loop fetch upload srcdata urls) ∧
    (∀ (fetch : PyStr → FetchOutcome) (upload : PyStr → PyBytes → UploadOutcome)
        (srcdata u : PyStr), fetch u = .transportExn →
      candidateScore fetch upload srcdata u = 0) ∧
    (∀ (fetch : PyStr → FetchOutcome) (upload : PyStr → PyBytes → UploadOutcome)
        (srcdata : PyStr) (urls : List PyStr),
      (∀ u ∈ urls, fetch u = .httpStatusErr ∨ fetch u = .transportExn) →
      download_loop fetch upload srcdata urls = 0) := by
  refine ⟨?_, ?_, ?_⟩
  · intro fetch upload srcdata u urls
    rw [download_loop, download_loop, List.foldl_cons, download_loop_shift]
    omega
  · intro fetch upload srcdata u hu
    simp [candidateScore, fetch_upload, try_get, hu]
  · intro fetch upload srcdata urls
    induction urls with
    | nil => intro _; rfl
    | cons u us ih =>
      intro hall
      have hu := hall u (List.mem_cons_self u us)
      have hscore : candidateScore fetch upload srcdata u = 0 := by
        rcases hu with hu | hu <;> simp [candidateScore, fetch_upload, try_get, hu]
      rw [download_loop, List.foldl_cons, download_loop_shift]
      rw [download_loop] at ih
      rw [ih (fun x hx => hall x (List.mem_cons_of_mem _ hx))]
      omega

/-- Witness for `download_loop_spec`: a two-candidate batch in which one
fetch fails with an HTTP status error and the other raises a transport
exception returns success count `0`; the first candidate still
contributes a (zero) score on its own. -/
theorem download_loop_spec_witness :
    download_loop
      (fun u => if u = pys "http://x/a.pdf" then .httpStatusErr
                else .transportExn)
      (fun _ _ => .ok) (pys "/sd") [pys "http://x/a.pdf", pys "http://x/b.pdf"]
      = 0 ∧
    candidateScore
      (fun u => if u = pys "http://x/a.pdf" then .httpStatusErr
                else .transportExn)
      (fun _ _ => .ok) (pys "/sd") (pys "http://x/b.pdf") = 0 := by
  constructor
  · exact download_loop_spec.2.2 _ _ _ _ (by decide)
  · exact download_loop_spec.2.1 _ _ _ _ (by decide)

/-! Folder provisioning (`ensure_folder`, lines 287-291, and the
provisioning phase of `download_ar_generic`, lines 325-344). -/

/-- Reasons carried by `dropbox.exceptions.ApiError`. -/
inductive DbxApiReason where
  | notFound
  | conflict
  | other
deriving DecidableEq, Repr

/-- Outcome of one Dropbox SDK call: success, `ApiError` (with reason), or
any other exception (auth failure, transport error, ...). -/
inductive DbxCallOutcome where
  | ok
  | apiErr (reason : DbxApiReason)
  | otherExn
deriving DecidableEq, Repr

/-- How a best-effort step ends at its caller: a normal return (with a
flag for whether the side effect ran) or a propagated exception. -/
inductive StepEnd where
  | done (effected : Bool)
  | raised
deriving DecidableEq, Repr

/-- Function `ensure_folder` (lines 287-291) over abstract call outcomes: the
`except dropbox.exceptions.ApiError` clause catches *every* `ApiError`
from the metadata read — whatever its reason — and then creates the
folder; a non-`ApiError` exception from the read, and any failure of the
creation itself, propagate. -/
def ensure_folder_outcome (meta create : DbxCallOutcome) : StepEnd :=
  match meta with
  | .ok => .done false
  | .apiErr _ =>
    (match create with
     | .ok => .done true
     | _ => .raised)
  | .otherExn => .raised

/-- One template-seed copy attempt (each of lines 330-344): `ApiError` is
caught and logged as a warning; any other exception propagates. -/
def copy_attempt (copy : DbxCallOutcome) : StepEnd :=
  match copy with
  | .ok => .done true
  | .apiErr _ => .done false
  | .otherExn => .raised

/-- Claim C5 (amended): the metadata read is attempted for each path, and
*any* storage-API failure of the read — not only "not found" — leads to
creating the folder, with the outcome independent of the `ApiError`
reason; only non-API failures of the read (and failures of the creation
itself) propagate, while a successful read creates nothing. -/
theorem ensure_folder_outcome_spec :
    (∀ r : DbxApiReason, ensure_folder_outcome (.apiErr r) .ok = .done true) ∧
    (∀ r r' : DbxApiReason,
      ∀ c : DbxCallOutcome, ensure_folder_outcome (.apiErr r) c
        = ensure_folder_outcome (.apiErr r') c) ∧
    (∀ c : DbxCallOutcome, ensure_folder_outcome .otherExn c = .raised) ∧
    (∀ c : DbxCallOutcome, ensure_folder_outcome .ok c = .done false) ∧
    (∀ r : DbxApiReason,
      ensure_folder_outcome (.apiErr .notFound) (.apiErr r) = .raised) := by
  refine ⟨fun r => rfl, fun r r' c => rfl, fun c => rfl, fun c => rfl,
    fun r => rfl⟩

/-- Counterexample to claim C5 as stated: a metadata read failing with an
`ApiError` whose reason is *not* "not found" does not propagate — the
code catches it and creates the folder anyway. -/
theorem ensure_folder_claim_false :
    ensure_folder_outcome (.apiErr .other) .ok = .done true ∧
    ensure_folder_outcome (.apiErr .other) .ok ≠ .raised := by
  exact ⟨rfl, by decide⟩

/-- The remote store as the set of existing paths (folders and files),
represented as a list. -/
abbrev Store := List PyStr

/-- Store semantics of `dbx.files_get_metadata(path)`: succeeds exactly
when the path exists, else `ApiError` "not found". -/
def files_get_metadata (s : Store) (p : PyStr) : Except DbxApiReason Unit :=
  if p ∈ s then .ok () else .error .notFound

/-- Store semantics of `dbx.files_create_folder_v2(path)`: conflict when
the path already exists, else the path is added. -/
def files_create_folder_v2 (s : Store) (p : PyStr) :
    Except DbxApiReason Store :=
  if p ∈ s then .error .conflict else .ok (p :: s)

/-- Store semantics of `dbx.files_copy_v2(src, dst)` with
`autorename=False`: "not found" when the source is missing, conflict when
the destination exists, else the destination is added. -/
def files_copy_v2 (s : Store) (src dst : PyStr) :
    Except DbxApiReason Store :=
  if src ∈ s then
    (if dst ∈ s then .error .conflict else .ok (dst :: s))
  else .error .notFound

/-- Function `ensure_folder` (lines 287-291) against the store semantics: read the
metadata; on any `ApiError` fall into folder creation, whose own failure
would propagate. -/
def ensure_folder (s : Store) (p : PyStr) : Except DbxApiReason Store :=
  match files_get_metadata s p with
  | .ok _ => .ok s
  | .error _ => files_create_folder_v2 s p

/-- One template-seed copy of lines 330-344 against the store semantics:
`try: files_copy_v2(...) except ApiError: log a warning`. -/
def copy_caught (s : Store) (src dst : PyStr) : Store :=
  match files_copy_v2 s src dst with
  | .ok s2 => s2
  | .error _ => s

/-- Root of the per-job folder tree (line 325). -/
def AR_ROOT : PyStr :=
  pys "/KENORLAND_DIGITIZING/ASSESSMENT_REPORTS/1 - NEW REPORTS/"

/-- Template source: the instructions spreadsheet (line 331). -/
def DOC_INSTR : PyStr :=
  pys "/KENORLAND_DIGITIZING/ASSESSMENT_REPORTS/_Documents/Instructions/01_Instructions.xlsx"

/-- Template source: the geochemistry geodatabase (line 336). -/
def DOC_GEO : PyStr :=
  pys "/KENORLAND_DIGITIZING/ASSESSMENT_REPORTS/_Documents/Instructions/ReportID_Geochemistry.gdb"

/-- Template source: the drill-hole geodatabase (line 341). -/
def DOC_DDH : PyStr :=
  pys "/KENORLAND_DIGITIZING/ASSESSMENT_REPORTS/_Documents/Instructions/ReportID_DDH.gdb"

/-- Path `base` of line 325. -/
def basePath (pv pj ar : PyStr) : PyStr :=
  AR_ROOT ++ pv ++ pys "/" ++ pj ++ pys "/" ++ ar

/-- Path `instr` of line 326. -/
def instrPath (pv pj ar : PyStr) : PyStr :=
  basePath pv pj ar ++ pys "/Instructions"

/-- Path `srcdata` of line 327. -/
def srcdataPath (pv pj ar : PyStr) : PyStr :=
  basePath pv pj ar ++ pys "/Source Data"

/-- Destination of the instructions copy (line 332). -/
def instrDest (pv pj ar : PyStr) : PyStr :=
  instrPath pv pj ar ++ pys "/" ++ ar ++ pys "_Instructions.xlsx"

/-- Destination of the geochemistry copy (line 337). -/
def geoDest (pv pj ar : PyStr) : PyStr :=
  basePath pv pj ar ++ pys "/" ++ ar ++ pys "_Geochemistry.gdb"

/-- Destination of the drill-hole copy (line 342). -/
def ddhDest (pv pj ar : PyStr) : PyStr :=
  basePath pv pj ar ++ pys "/" ++ ar ++ pys "_DDH.gdb"

/-- The provisioning phase of `download_ar_generic` (lines 325-344):
three `ensure_folder` calls whose errors propagate, then three
best-effort template copies. -/
def provision (s : Store) (pv pj ar : PyStr) : Except DbxApiReason Store := do
  let s1 ← ensure_folder s (basePath pv pj ar)
  let s2 ← ensure_folder s1 (instrPath pv pj ar)
  let s3 ← ensure_folder s2 (srcdataPath pv pj ar)
  let s4 := copy_caught s3 DOC_INSTR (instrDest pv pj ar)
  let s5 := copy_caught s4 DOC_GEO (geoDest pv pj ar)
  pure (copy_caught s5 DOC_DDH (ddhDest pv pj ar))

/-- Pure form of `ensure_folder` under the store semantics. -/
def ensureF (p : PyStr) (s : Store) : Store := if p ∈ s then s else p :: s

/-- Pure form of a caught template copy under the store semantics. -/
def copyF (src dst : PyStr) (s : Store) : Store :=
  if src ∈ s then (if dst ∈ s then s else dst :: s) else s

/-- Pure form of `provision` under the store semantics. -/
def provisionPure (s : Store) (pv pj ar : PyStr) : Store :=
  copyF DOC_DDH (ddhDest pv pj ar)
    (copyF DOC_GEO (geoDest pv pj ar)
      (copyF DOC_INSTR (instrDest pv pj ar)
        (ensureF (srcdataPath pv pj ar)
          (ensureF (instrPath pv pj ar)
            (ensureF (basePath pv pj ar) s)))))

theorem ensure_folder_eq (s : Store) (p : PyStr) :
    ensure_folder s p = .ok (ensureF p s) := by
  by_cases hp : p ∈ s <;>
    simp [ensure_folder, files_get_metadata, files_create_folder_v2,
      ensureF, hp]

theorem copy_caught_eq (s : Store) (src dst : PyStr) :
    copy_caught s src dst = copyF src dst s := by
  by_cases h1 : src ∈ s
  · by_cases h2 : dst ∈ s <;>
      simp [copy_caught, files_copy_v2, copyF, h1, h2]
  · simp [copy_caught, files_copy_v2, copyF, h1]

theorem provision_eq (s : Store) (pv pj ar : PyStr) :
    provision s pv pj ar = .ok (provisionPure s pv pj ar) := by
  rw [provision]
  simp only [ensure_folder_eq, copy_caught_eq, bind, Except.bind, pure,
    Except.pure, provisionPure]

theorem mem_ensureF_self (p : PyStr) (s : Store) : p ∈ ensureF p s := by
  by_cases h : p ∈ s <;> simp [ensureF, h]

theorem mem_ensureF_of {x : PyStr} (p : PyStr) {s : Store} (h : x ∈ s) :
    x ∈ ensureF p s := by
  by_cases hp : p ∈ s <;> simp [ensureF, hp, h]

theorem mem_ensureF_elim {x p : PyStr} {s : Store} (h : x ∈ ensureF p s) :
    x = p ∨ x ∈ s := by
  by_cases hp : p ∈ s
  · rw [ensureF, if_pos hp] at h; exact Or.inr h
  · rw [ensureF, if_neg hp] at h; exact List.mem_cons.1 h

theorem ensureF_noop {p : PyStr} {s : Store} (h : p ∈ s) :
    ensureF p s = s := by
  rw [ensureF, if_pos h]

theorem mem_copyF_of {x : PyStr} (p q : PyStr) {s : Store} (h : x ∈ s) :
    x ∈ copyF p q s := by
  by_cases h1 : p ∈ s <;> [skip; simp [copyF, h1, h]]
  by_cases h2 : q ∈ s <;> simp [copyF, h1, h2, h]

theorem mem_copyF_elim {x p q : PyStr} {s : Store} (h : x ∈ copyF p q s) :
    x = q ∨ x ∈ s := by
  by_cases h1 : p ∈ s
  · by_cases h2 : q ∈ s
    · rw [copyF, if_pos h1, if_pos h2] at h; exact Or.inr h
    · rw [copyF, if_pos h1, if_neg h2] at h; exact List.mem_cons.1 h
  · rw [copyF, if_neg h1] at h; exact Or.inr h

theorem copyF_noop {p q : PyStr} {s : Store} (h : p ∈ s → q ∈ s) :
    copyF p q s = s := by
  by_cases h1 : p ∈ s
  · rw [copyF, if_pos h1, if_pos (h h1)]
  · rw [copyF, if_neg h1]

theorem mem_copyF_ins {p : PyStr} (q : PyStr) {s : Store} (h1 : p ∈ s) :
    q ∈ copyF p q s := by
  by_cases h2 : q ∈ s <;> simp [copyF, h1, h2]

theorem chain_mem (b i d p1 q1 p2 q2 p3 q3 : PyStr) (s : Store) :
    b ∈ copyF p3 q3 (copyF p2 q2 (copyF p1 q1
        (ensureF d (ensureF i (ensureF b s))))) ∧
    i ∈ copyF p3 q3 (copyF p2 q2 (copyF p1 q1
        (ensureF d (ensureF i (ensureF b s))))) ∧
    d ∈ copyF p3 q3 (copyF p2 q2 (copyF p1 q1
        (ensureF d (ensureF i (ensureF b s))))) := by
  refine ⟨?_, ?_, ?_⟩
  · exact mem_copyF_of _ _ (mem_copyF_of _ _ (mem_copyF_of _ _
      (mem_ensureF_of _ (mem_ensureF_of _ (mem_ensureF_self b s)))))
  · exact mem_copyF_of _ _ (mem_copyF_of _ _ (mem_copyF_of _ _
      (mem_ensureF_of _ (mem_ensureF_self i _))))
  · exact mem_copyF_of _ _ (mem_copyF_of _ _ (mem_copyF_of _ _
      (mem_ensureF_self d _)))

theorem chain_idem (b i d p1 q1 p2 q2 p3 q3 : PyStr) (s : Store)
    (h12 : p1 ≠ q2) (h13 : p1 ≠ q3) (h23 : p2 ≠ q3) :
    copyF p3 q3 (copyF p2 q2 (copyF p1 q1 (ensureF d (ensureF i (ensureF b
      (copyF p3 q3 (copyF p2 q2 (copyF p1 q1
        (ensureF d (ensureF i (ensureF b s)))))))))))
      = copyF p3 q3 (copyF p2 q2 (copyF p1 q1
          (ensureF d (ensureF i (ensureF b s))))) := by
  set u3 := ensureF d (ensureF i (ensureF b s)) with hu3
  set u4 := copyF p1 q1 u3 with hu4
  set u5 := copyF p2 q2 u4 with hu5
  set u6 := copyF p3 q3 u5 with hu6
  obtain ⟨hb, hi, hd⟩ := chain_mem b i d p1 q1 p2 q2 p3 q3 s
  have ha1 : p1 ∈ u6 → q1 ∈ u6 := by
    by_cases hs : p1 ∈ u3
    · intro _
      by_cases hq : q1 ∈ u3
      · exact mem_copyF_of _ _ (mem_copyF_of _ _ (mem_copyF_of _ _ hq))
      · exact mem_copyF_of _ _ (mem_copyF_of _ _
          (hu4 ▸ mem_copyF_ins q1 hs))
    · intro hmem
      rcases mem_copyF_elim (hu6 ▸ hmem) with h3 | hmem5
      · exact absurd h3 h13
      rcases mem_copyF_elim (hu5 ▸ hmem5) with h2 | hmem4
      · exact absurd h2 h12
      rcases mem_copyF_elim (hu4 ▸ hmem4) with h1 | hmem3
      · exact h1 ▸ hmem
      · exact absurd hmem3 hs
  have ha2 : p2 ∈ u6 → q2 ∈ u6 := by
    by_cases hs : p2 ∈ u4
    · intro _
      by_cases hq : q2 ∈ u4
      · exact mem_copyF_of _ _ (mem_copyF_of _ _ hq)
      · exact mem_copyF_of _ _ (hu5 ▸ mem_copyF_ins q2 hs)
    · intro hmem
      rcases mem_copyF_elim (hu6 ▸ hmem) with h3 | hmem5
      · exact absurd h3 h23
      rcases mem_copyF_elim (hu5 ▸ hmem5) with h2 | hmem4
      · exact h2 ▸ hmem
      · exact absurd hmem4 hs
  have ha3 : p3 ∈ u6 → q3 ∈ u6 := by
    by_cases hs : p3 ∈ u5
    · intro _
      exact hu6 ▸ mem_copyF_ins q3 hs
    · intro hmem
      rcases mem_copyF_elim (hu6 ▸ hmem) with h3 | hmem5
      · exact h3 ▸ hmem
      · exact absurd hmem5 hs
  rw [ensureF_noop hb, ensureF_noop hi, ensureF_noop hd,
    copyF_noop ha1, copyF_noop ha2, copyF_noop ha3]

theorem doc_ne_under_root {src : PyStr} (hs : src[41]? = some '_')
    (r : PyStr) : src ≠ AR_ROOT ++ r := by
  intro h
  have h41 := congrArg (fun l : PyStr => l[41]?) h
  simp only at h41
  rw [List.getElem?_append_left (by decide : (41 : Nat) < AR_ROOT.length),
    hs] at h41
  exact absurd h41 (by decide)

theorem geoDest_form (pv pj ar : PyStr) :
    ∃ r, geoDest pv pj ar = AR_ROOT ++ r :=
  ⟨pv ++ pys "/" ++ pj ++ pys "/" ++ ar ++ pys "/" ++ ar ++
      pys "_Geochemistry.gdb",
    by simp [geoDest, basePath, List.append_assoc]⟩

theorem ddhDest_form (pv pj ar : PyStr) :
    ∃ r, ddhDest pv pj ar = AR_ROOT ++ r :=
  ⟨pv ++ pys "/" ++ pj ++ pys "/" ++ ar ++ pys "/" ++ ar ++ pys "_DDH.gdb",
    by simp [ddhDest, basePath, List.append_assoc]⟩

/-- Claim C6 (amended): provisioning is idempotent — a first call returns
normally, a second call over the resulting store returns normally with
the store unchanged, the three job folders exist exactly once afterwards
— and every storage-*API* failure of a template-seed copy (such as
"already exists" or "source missing") is caught without aborting; the
amendment restricts "every failure" to API failures, since a
non-`ApiError` exception in a copy does propagate. -/
theorem provision_idempotent :
    ∀ (s : Store) (pv pj ar : PyStr),
      provision s pv pj ar = .ok (provisionPure s pv pj ar) ∧
      provision (provisionPure s pv pj ar) pv pj ar
        = .ok (provisionPure s pv pj ar) ∧
      basePath pv pj ar ∈ provisionPure s pv pj ar ∧
      instrPath pv pj ar ∈ provisionPure s pv pj ar ∧
      srcdataPath pv pj ar ∈ provisionPure s pv pj ar ∧
      (∀ r : DbxApiReason, copy_attempt (.apiErr r) = .done false) := by
  intro s pv pj ar
  have h12 : DOC_INSTR ≠ geoDest pv pj ar := by
    obtain ⟨r, hr⟩ := geoDest_form pv pj ar
    rw [hr]
    exact doc_ne_under_root (by decide) r
  have h13 : DOC_INSTR ≠ ddhDest pv pj ar := by
    obtain ⟨r, hr⟩ := ddhDest_form pv pj ar
    rw [hr]
    exact doc_ne_under_root (by decide) r
  have h23 : DOC_GEO ≠ ddhDest pv pj ar := by
    obtain ⟨r, hr⟩ := ddhDest_form pv pj ar
    rw [hr]
    exact doc_ne_under_root (by decide) r
  have hidem : provisionPure (provisionPure s pv pj ar) pv pj ar
      = provisionPure s pv pj ar := by
    simp only [provisionPure]
    exact chain_idem _ _ _ _ _ _ _ _ _ s h12 h13 h23
  obtain ⟨hb, hi, hd⟩ := chain_mem (basePath pv pj ar) (instrPath pv pj ar)
    (srcdataPath pv pj ar) DOC_INSTR (instrDest pv pj ar) DOC_GEO
    (geoDest pv pj ar) DOC_DDH (ddhDest pv pj ar) s
  exact ⟨provision_eq s pv pj ar,
    by rw [provision_eq, hidem],
    hb, hi, hd, fun r => rfl⟩

/-- Counterexample to claim C6 as stated: a template-seed copy failure
that is not an `ApiError` (an auth or transport exception from the SDK
call) is *not* caught by the `except dropbox.exceptions.ApiError` clause
— it propagates and aborts provisioning, so "every failure of a
template-seed copy is caught and logged" is false of the code. -/
theorem provision_copy_claim_false :
    copy_attempt .otherExn = .raised ∧
    copy_attempt .otherExn ≠ .done false ∧
    copy_attempt .otherExn ≠ .done true := by
  exact ⟨rfl, by decide, by decide⟩

/-! Manitoba direct download (`download_ar_manitoba`, lines 386-425). -/

/-- Errors that can propagate out of `download_ar_manitoba`. -/
inductive MbErr where
  | api (r : DbxApiReason)
  | fetchExn
  | uploadExn
deriving DecidableEq, Repr

/-- The single fixed address attempted for Manitoba (line 418). -/
def mbUrl (ar : PyStr) : PyStr :=
  pys "https://www.gov.mb.ca/data/em/application/assessment/" ++ ar ++
    pys ".pdf"

/-- Function `download_ar_manitoba` (lines 386-425): provisioning identical to the
generic path, then a single `_try_get` on the fixed address — with *no*
catch-all around it, so a non-`HTTPError` fetch exception propagates —
and one upload (overwrite mode) when content arrived. -/
def download_ar_manitoba (s : Store) (fetch : PyStr → FetchOutcome)
    (upload : UploadOutcome) (pv pj ar : PyStr) :
    Except MbErr (Store × Nat) :=
  match provision s pv pj ar with
  | .error r => .error (.api r)
  | .ok s1 =>
    match fetch (mbUrl ar) with
    | .transportExn => .error .fetchExn
    | .httpStatusErr => .ok (s1, 0)
    | .body content =>
      if content = [] then .ok (s1, 0)
      else
        let fn := pyBasename (pyUrlparse (mbUrl ar)).path
        let filename := if fn = [] then ar ++ pys ".pdf" else fn
        match upload with
        | .ok =>
          .ok (ensureF (srcdataPath pv pj ar ++ pys "/" ++ filename) s1, 1)
        | .exn => .error .uploadExn

/-- Claim C9 (amended): Manitoba bypasses discovery — the fetch
environment is consulted at exactly one address, `<fixedBase>/<ar>.pdf` —
and any normal return carries success count 0 or 1; when the single fetch
fails with an HTTP status error no error is raised and the count is 0.
The amendment drops "no error raised" for *non-HTTP-status* fetch
failures: a transport-level exception propagates (see the
counterexample). -/
theorem download_ar_manitoba_spec :
    (∀ (s : Store) (fetch fetch2 : PyStr → FetchOutcome)
        (upload : UploadOutcome) (pv pj ar : PyStr),
      fetch (mbUrl ar) = fetch2 (mbUrl ar) →
      download_ar_manitoba s fetch upload pv pj ar
        = download_ar_manitoba s fetch2 upload pv pj ar) ∧
    (∀ (s : Store) (fetch : PyStr → FetchOutcome) (upload : UploadOutcome)
        (pv pj ar : PyStr) (s2 : Store) (n : Nat),
      download_ar_manitoba s fetch upload pv pj ar = .ok (s2, n) →
      n = 0 ∨ n = 1) ∧
    (∀ (s : Store) (fetch : PyStr → FetchOutcome) (upload : UploadOutcome)
        (pv pj ar : PyStr),
      fetch (mbUrl ar) = .httpStatusErr →
      download_ar_manitoba s fetch upload pv pj ar
        = .ok (provisionPure s pv pj ar, 0)) := by
  refine ⟨?_, ?_, ?_⟩
  · intro s fetch fetch2 upload pv pj ar h
    simp only [download_ar_manitoba, h]
  · intro s fetch upload pv pj ar s2 n h
    rw [download_ar_manitoba, provision_eq] at h
    rcases hf : fetch (mbUrl ar) with b | _ | _ <;> rw [hf] at h <;>
      dsimp only at h
    · by_cases hb : b = []
      · rw [if_pos hb] at h
        exact Or.inl (congrArg Prod.snd (Except.ok.inj h)).symm
      · rw [if_neg hb] at h
        cases upload with
        | ok => exact Or.inr (congrArg Prod.snd (Except.ok.inj h)).symm
        | exn => exact absurd h (by simp)
    · exact Or.inl (congrArg Prod.snd (Except.ok.inj h)).symm
    · exact absurd h (by simp)
  · intro s fetch upload pv pj ar h
    rw [download_ar_manitoba, provision_eq, h]

/-- Witness for `download_ar_manitoba_spec`: with the single fetch
failing by HTTP status, the call returns normally with count 0. -/
theorem download_ar_manitoba_spec_witness :
    download_ar_manitoba [] (fun _ => .httpStatusErr) .ok
      (pys "Manitoba") (pys "P") (pys "20000000")
      = .ok (provisionPure [] (pys "Manitoba") (pys "P") (pys "20000000"), 0) :=
  download_ar_manitoba_spec.2.2 [] _ .ok _ _ _ rfl

/-- Counterexample to claim C9 as stated: when the single fetch fails
with a transport-level exception (connection error, exhausted retries),
`download_ar_manitoba` does raise — `_try_get` only swallows
`requests.HTTPError` and the Manitoba path has no surrounding catch. -/
theorem download_ar_manitoba_claim_false :
    download_ar_manitoba [] (fun _ => .transportExn) .ok
      (pys "Manitoba") (pys "P") (pys "20000000") = .error .fetchExn := by
  rw [download_ar_manitoba, provision_eq]

/-! Restriction removal (`_unlock_pdf_bytes`, lines 441-472). -/

/-- Outcome of one `pikepdf.open(...)` attempt followed by the
re-serialization: a successful open whose `save` either succeeded
(producing `saved`) or raised, a `PasswordError`, or any other
exception. -/
inductive OpenOutcome where
  | opened (saveOk : Bool) (saved : PyBytes)
  | pwErr
  | otherExn
deriving DecidableEq, Repr

/-- What one iteration of the password loop does next. -/
inductive LoopStep where
  | ret (b : PyBytes)
  | cont
  | brk
deriving DecidableEq, Repr

/-- One iteration of the loop in `_unlock_pdf_bytes`.  `strictCatch` says
whether `pikepdf._qpdf.__dict__` provides `PasswordError`, making the
first `except` clause `(PasswordError, PasswordError)`; when it does not,
the clause degenerates to `(PasswordError, Exception)` and catches every
exception, continuing with the next password instead of breaking. -/
def unlock_step (strictCatch : Bool) : OpenOutcome → LoopStep
  | .opened true b => .ret b
  | .opened false _ => if strictCatch then .brk else .cont
  | .pwErr => .cont
  | .otherExn => if strictCatch then .brk else .cont

/-- Function `_unlock_pdf_bytes` (lines 441-472): try opening with password `None`
then with the empty password; on a fully successful open-and-save return
the re-serialized bytes, otherwise fall through and return the input
unchanged.  `env none` and `env (some "")` give the pikepdf outcome for
the two passwords. -/
def unlock_pdf_bytes (strictCatch : Bool)
    (env : Option PyStr → OpenOutcome) (data : PyBytes) : PyBytes :=
  match unlock_step strictCatch (env none) with
  | .ret b => b
  | .brk => data
  | .cont =>
    match unlock_step strictCatch (env (some [])) with
    | .ret b => b
    | _ => data

/-- Claim C7: restriction removal is total by construction (it returns a
byte string for every input and environment, never raising); when the
document demands a non-empty password (`PasswordError` under both `None`
and the empty password) it returns the input unchanged byte-for-byte;
more generally whenever no open-and-save attempt fully succeeds the input
comes back unchanged, and any other result is exactly the bytes of a
successful re-serialization. -/
theorem unlock_pdf_bytes_spec :
    ∀ (strict : Bool) (env : Option PyStr → OpenOutcome) (data : PyBytes),
      (env none = .pwErr → env (some []) = .pwErr →
        unlock_pdf_bytes strict env data = data) ∧
      ((∀ b, env none ≠ .opened true b) →
        (∀ b, env (some []) ≠ .opened true b) →
        unlock_pdf_bytes strict env data = data) ∧
      (unlock_pdf_bytes strict env data = data ∨
        ∃ b, unlock_pdf_bytes strict env data = b ∧
          (env none = .opened true b ∨ env (some []) = .opened true b)) := by
  intro strict env data
  refine ⟨?_, ?_, ?_⟩
  · intro h1 h2
    simp [unlock_pdf_bytes, unlock_step, h1, h2]
  · intro h1 h2
    rcases ho : env none with ⟨sk, b⟩ | _ | _
    · cases sk with
      | true => exact absurd ho (h1 b)
      | false =>
        rcases ho2 : env (some []) with ⟨sk2, b2⟩ | _ | _
        · cases sk2 with
          | true => exact absurd ho2 (h2 b2)
          | false =>
            cases strict <;> simp [unlock_pdf_bytes, unlock_step, ho, ho2]
        · cases strict <;> simp [unlock_pdf_bytes, unlock_step, ho, ho2]
        · cases strict <;> simp [unlock_pdf_bytes, unlock_step, ho, ho2]
    · rcases ho2 : env (some []) with ⟨sk2, b2⟩ | _ | _
      · cases sk2 with
        | true => exact absurd ho2 (h2 b2)
        | false =>
          cases strict <;> simp [unlock_pdf_bytes, unlock_step, ho, ho2]
      · cases strict <;> simp [unlock_pdf_bytes, unlock_step, ho, ho2]
      · cases strict <;> simp [unlock_pdf_bytes, unlock_step, ho, ho2]
    · rcases ho2 : env (some []) with ⟨sk2, b2⟩ | _ | _
      · cases sk2 with
        | true => exact absurd ho2 (h2 b2)
        | false =>
          cases strict <;> simp [unlock_pdf_bytes, unlock_step, ho, ho2]
      · cases strict <;> simp [unlock_pdf_bytes, unlock_step, ho, ho2]
      · cases strict <;> simp [unlock_pdf_bytes, unlock_step, ho, ho2]
  · rcases ho : env none with ⟨sk, b⟩ | _ | _
    · cases sk with
      | true =>
        exact Or.inr ⟨b, by simp [unlock_pdf_bytes, unlock_step, ho],
          Or.inl rfl⟩
      | false =>
        rcases ho2 : env (some []) with ⟨sk2, b2⟩ | _ | _
        · cases sk2 with
          | true =>
            cases strict
            · exact Or.inr ⟨b2,
                by simp [unlock_pdf_bytes, unlock_step, ho, ho2], Or.inr rfl⟩
            · exact Or.inl (by simp [unlock_pdf_bytes, unlock_step, ho, ho2])
          | false =>
            exact Or.inl (by
              cases strict <;> simp [unlock_pdf_bytes, unlock_step, ho, ho2])
        · exact Or.inl (by
            cases strict <;> simp [unlock_pdf_bytes, unlock_step, ho, ho2])
        · exact Or.inl (by
            cases strict <;> simp [unlock_pdf_bytes, unlock_step, ho, ho2])
    · rcases ho2 : env (some []) with ⟨sk2, b2⟩ | _ | _
      · cases sk2 with
        | true =>
          exact Or.inr ⟨b2,
            by simp [unlock_pdf_bytes, unlock_step, ho, ho2], Or.inr rfl⟩
        | false =>
          exact Or.inl (by
            cases strict <;> simp [unlock_pdf_bytes, unlock_step, ho, ho2])
      · exact Or.inl (by
          cases strict <;> simp [unlock_pdf_bytes, unlock_step, ho, ho2])
      · exact Or.inl (by
          cases strict <;> simp [unlock_pdf_bytes, unlock_step, ho, ho2])
    · rcases ho2 : env (some []) with ⟨sk2, b2⟩ | _ | _
      · cases sk2 with
        | true =>
          cases strict
          · exact Or.inr ⟨b2,
              by simp [unlock_pdf_bytes, unlock_step, ho, ho2], Or.inr rfl⟩
          · exact Or.inl (by simp [unlock_pdf_bytes, unlock_step, ho, ho2])
        | false =>
          exact Or.inl (by
            cases strict <;> simp [unlock_pdf_bytes, unlock_step, ho, ho2])
      · exact Or.inl (by
          cases strict <;> simp [unlock_pdf_bytes, unlock_step, ho, ho2])
      · exact Or.inl (by
          cases strict <;> simp [unlock_pdf_bytes, unlock_step, ho, ho2])

/-- Witness for `unlock_pdf_bytes_spec`: a document whose open demands a
real (non-empty) password under both attempts comes back unchanged. -/
theorem unlock_pdf_bytes_spec_witness :
    unlock_pdf_bytes true (fun _ => .pwErr) [37, 80, 68, 70] = [37, 80, 68, 70] :=
  (unlock_pdf_bytes_spec true (fun _ => .pwErr) [37, 80, 68, 70]).1 rfl rfl

/-! Job submission dispatch (`download_gm`, lines 509-530). -/

/-- The branch taken by the `download_gm` handler body. -/
inductive GmAction where
  | missingParams
  | quebec
  | ontario
  | newBrunswick
  | manitoba
  | invalid
deriving DecidableEq, Repr

/-- The dispatch of `download_gm` (lines 511-530): strip the three
fields, reject when any is empty, then branch on the province — Quebec
additionally requires the report number to start with `"GM"` after
upper-casing, and every unmatched combination falls to the final
`else`. -/
def download_gm_dispatch (ar prov proj : PyStr) : GmAction :=
  let num := pyStrip ar
  let pv := pyStrip prov
  let pj := pyStrip proj
  if num = [] ∨ pv = [] ∨ pj = [] then .missingParams
  else if pv = pys "Quebec" ∧ pyStartsWith (pys "GM") (pyUpper num) then
    .quebec
  else if pv = pys "Ontario" then .ontario
  else if pv = pys "New Brunswick" then .newBrunswick
  else if pv = pys "Manitoba" then .manitoba
  else .invalid

/-- The caller-visible error response of the non-dispatching branches
(lines 516 and 530): message text and HTTP status. -/
def gmErrorOf : GmAction → Option (PyStr × Nat)
  | .missingParams => some (pys "Missing parameters", 400)
  | .invalid => some (pys "Invalid province or AR#", 400)
  | _ => none

/-- Claim C10: a Quebec submission whose report identifier lacks the
`GM` prefix falls through every province branch and yields the same
action — hence the same error body `"Invalid province or AR#"` and
status 400 — as a submission naming an unsupported jurisdiction, for any
unsupported jurisdiction name. -/
theorem download_gm_quebec_invalid_spec :
    ∀ (ar proj prov2 : PyStr),
      pyStrip ar ≠ [] →
      ¬ pyStartsWith (pys "GM") (pyUpper (pyStrip ar)) →
      pyStrip proj ≠ [] →
      pyStrip prov2 ≠ [] →
      pyStrip prov2 ≠ pys "Quebec" →
      pyStrip prov2 ≠ pys "Ontario" →
      pyStrip prov2 ≠ pys "New Brunswick" →
      pyStrip prov2 ≠ pys "Manitoba" →
      download_gm_dispatch ar (pys "Quebec") proj = .invalid ∧
      download_gm_dispatch ar prov2 proj = .invalid ∧
      download_gm_dispatch ar (pys "Quebec") proj
        = download_gm_dispatch ar prov2 proj ∧
      gmErrorOf .invalid = some (pys "Invalid province or AR#", 400) := by
  intro ar proj prov2 har hgm hproj h2 hq ho hn hm
  have hquebec : download_gm_dispatch ar (pys "Quebec") proj = .invalid := by
    rw [download_gm_dispatch]
    have hqs : pyStrip (pys "Quebec") = pys "Quebec" := by decide
    rw [hqs]
    rw [if_neg (by simp [har, hproj]; decide)]
    rw [if_neg (by simp [hgm])]
    rw [if_neg (by decide), if_neg (by decide), if_neg (by decide)]
  have hother : download_gm_dispatch ar prov2 proj = .invalid := by
    rw [download_gm_dispatch]
    rw [if_neg (by simp [har, hproj, h2])]
    rw [if_neg (by simp [hq])]
    rw [if_neg ho, if_neg hn, if_neg hm]
  exact ⟨hquebec, hother, hquebec.trans hother.symm, rfl⟩

/-- Witness for `download_gm_quebec_invalid_spec`: the concrete
submission (reportId `"12345"`, project `"P"`) is rejected identically
under Quebec and under the unsupported jurisdiction `"Mars"`. -/
theorem download_gm_quebec_invalid_spec_witness :
    download_gm_dispatch (pys "12345") (pys "Quebec") (pys "P")
      = .invalid ∧
    download_gm_dispatch (pys "12345") (pys "Mars") (pys "P") = .invalid ∧
    download_gm_dispatch (pys "12345") (pys "Quebec") (pys "P")
      = download_gm_dispatch (pys "12345") (pys "Mars") (pys "P") ∧
    gmErrorOf .invalid = some (pys "Invalid province or AR#", 400) :=
  download_gm_quebec_invalid_spec (pys "12345") (pys "P") (pys "Mars")
    (by decide) (by decide) (by decide) (by decide) (by decide) (by decide)
    (by decide) (by decide)
